import Mathlib

/-!
# flutter_ever_crypto: the native export surface

A shallow embedding of `src/flutter_ever_crypto.c`: the three exported
functions `sum`, `sum_long_running` and `flutter_ever_crypto_init`, written as
state-passing functions over an explicit `World`, together with the machine
arithmetic of the C type `int` (32 bits wide on every target of the plugin).
-/

namespace FlutterEverCrypto

/-! ## Machine integers -/

/-- Smallest value of the C type `int` (`INT_MIN`), `-2^31`. -/
def INT_MIN : Int := -2147483648

/-- Largest value of the C type `int` (`INT_MAX`), `2^31 - 1`. -/
def INT_MAX : Int := 2147483647

/-- Number of values of a 32-bit machine word, `2^32`. -/
def WORD : Int := 4294967296

/-- Membership in the range of the C type `int`. -/
def InInt32 (x : Int) : Prop := INT_MIN ≤ x ∧ x ≤ INT_MAX

instance (x : Int) : Decidable (InInt32 x) := by
  unfold InInt32
  infer_instance

/-- Reduction of a mathematical integer to the 32-bit two's-complement value
with the same low 32 bits. -/
def wrap32 (x : Int) : Int := (x - INT_MIN) % WORD + INT_MIN

/-- The C expression `a + b` on operands of type `int`, as the machine's
32-bit add instruction computes it.  ISO C leaves the overflowing case
undefined; the compiled function is a single two's-complement addition. -/
def int_add (a b : Int) : Int := wrap32 (a + b)

/-- The C expression `a * b` on operands of type `int`, as the machine's
32-bit multiply instruction computes it. -/
def int_mul (a b : Int) : Int := wrap32 (a * b)

/-- Conversion of an `int` argument to a 32-bit unsigned parameter
(`DWORD` of `Sleep`, `useconds_t` of `usleep`): reduction modulo `2^32`. -/
def to_uint32 (x : Int) : Nat := (x % WORD).toNat

/-! ## The world outside the library -/

/-- Microseconds in one millisecond, the unit of the clock against that of `Sleep`. -/
def USEC_PER_MSEC : Nat := 1000

/-- How one sleep of the calling thread ends. -/
inductive Wakeup where
  /-- The requested duration elapsed; the scheduler resumed the thread
  `late` microseconds after that. -/
  | timeout (late : Nat)
  /-- The thread was woken in the course of microsecond `slept + 1` of the
  sleep.  When that is before the requested duration has elapsed the sleep is
  cut short: on POSIX a signal handler ran and `usleep` fails with `EINTR`,
  on Win32 the timer tick fell before the requested time. -/
  | early (slept : Nat)
  deriving DecidableEq

/-- Whether a sleep of `usec` microseconds that ends by this wake-up ends
before the requested duration has elapsed. -/
def Wakeup.cut_short (usec : Nat) : Wakeup → Bool
  | .timeout _ => false
  | .early slept => decide (slept + 1 < usec)

/-- Microseconds that go by during a sleep of `usec` microseconds that ends
by this wake-up. -/
def Wakeup.elapsed (usec : Nat) : Wakeup → Nat
  | .timeout late => usec + late
  | .early slept => min (slept + 1) usec

/-- What a caller can observe around a call besides the returned value.
The library itself has no global variable, so nothing of it appears here. -/
structure World where
  /-- Elapsed wall-clock time, in microseconds. -/
  clock : Nat
  /-- Durations handed to the platform sleep primitive so far, in
  microseconds, most recent first. -/
  sleeps : List Nat
  /-- How each sleep still to come will end, next one first; a sleep beyond
  the end of the list ends on time. -/
  wakeups : List Wakeup
  deriving DecidableEq

/-- The wake-up that ends the next sleep. -/
def next_wakeup (w : World) : Wakeup :=
  w.wakeups.headD (.timeout 0)

/-- Suspension of the calling thread for `usec` microseconds: the request is
recorded and the clock moves on by the time the sleep lasted.  The flag
tells whether the sleep was cut short. -/
def suspend (usec : Nat) (w : World) : Bool × World :=
  ((next_wakeup w).cut_short usec,
    { clock := w.clock + (next_wakeup w).elapsed usec
      sleeps := usec :: w.sleeps
      wakeups := w.wakeups.tail })

/-- Modelled from the spec: the Win32 primitive `void Sleep(dwMilliseconds)`,
declared by the platform header and absent from the source; it suspends the
calling thread for the given number of milliseconds and returns nothing, so
an early wake-up goes unreported. -/
def Sleep (dwMilliseconds : Nat) (w : World) : World :=
  (suspend (dwMilliseconds * USEC_PER_MSEC) w).2

/-- Modelled from the spec: the POSIX primitive `int usleep(usec)`, declared
by the platform header and absent from the source; it suspends the calling
thread for the given number of microseconds and returns 0, or returns -1
(`EINTR`) as soon as a signal handler has run. -/
def usleep (usec : Nat) (w : World) : Int × World :=
  (if (suspend usec w).1 then -1 else 0, (suspend usec w).2)

/-! ## The exported functions -/

/-- `int sum(int a, int b) { return a + b; }` -/
def sum (a b : Int) (w : World) : Int × World :=
  (int_add a b, w)

/-- The block `// Simulate work.` of `sum_long_running` (lines 20 to 25): one
call of the sleep primitive that the preprocessor selects (`#if _WIN32`).
The result of `usleep` is dropped and the call is not repeated. -/
def simulate_work (_WIN32 : Bool) (w : World) : World :=
  if _WIN32 then Sleep (to_uint32 5000) w
  else (usleep (to_uint32 (int_mul 5000 1000)) w).2

/-- `int sum_long_running(int a, int b)`: simulates work, then returns
`a + b`. -/
def sum_long_running (_WIN32 : Bool) (a b : Int) (w : World) : Int × World :=
  let w1 := simulate_work _WIN32 w
  (int_add a b, w1)

/-- `void flutter_ever_crypto_init(void) { }`: the body is empty. -/
def flutter_ever_crypto_init (w : World) : Unit × World :=
  ((), w)

/-! ## Call histories -/

/-- One call of an exported function, with its arguments. -/
inductive Call where
  | sum (a b : Int)
  | sum_long_running (a b : Int)
  | flutter_ever_crypto_init
  deriving DecidableEq

/-- The world after one call; the returned value is dropped. -/
def Call.exec (_WIN32 : Bool) : Call → World → World
  | .sum a b, w => (FlutterEverCrypto.sum a b w).2
  | .sum_long_running a b, w => (FlutterEverCrypto.sum_long_running _WIN32 a b w).2
  | .flutter_ever_crypto_init, w => (FlutterEverCrypto.flutter_ever_crypto_init w).2

/-- The world after a sequence of calls, executed first to last. -/
def run (_WIN32 : Bool) (history : List Call) (w : World) : World :=
  history.foldl (fun acc c => c.exec _WIN32 acc) w

/-- The world after `n` consecutive calls of the initializer. -/
def init_times : Nat → World → World
  | 0, w => w
  | n + 1, w => init_times n (flutter_ever_crypto_init w).2

/-! ## Concurrent callers -/

/-- Where an execution context stands in the call it makes. -/
inductive Pc where
  /-- The call has been made, nothing of the body has run. -/
  | entry
  /-- Inside `sum_long_running`, back from the sleep primitive. -/
  | slept
  /-- The call has returned. -/
  | returned
  deriving DecidableEq

/-- One execution context in the course of one call.  The operands (in
`call`), the position and the returned value are the context's own frame;
the source has no global or static variable for contexts to share besides
the world. -/
structure Context where
  /-- The exported function called, with its operands. -/
  call : Call
  /-- How far the call has got. -/
  pc : Pc
  /-- The value returned to the caller, once there is one. -/
  ret : Option Int
  deriving DecidableEq

/-- Steps a call takes from entry to return: `sum_long_running` sleeps, then
adds and returns; the other two functions have a single step. -/
def Call.steps : Call → Nat
  | .sum _ _ => 1
  | .sum_long_running _ _ => 2
  | .flutter_ever_crypto_init => 1

/-- One step of a context on the shared world. -/
def Context.step (_WIN32 : Bool) (c : Context) (w : World) : Context × World :=
  match c.pc, c.call with
  | .entry, .sum a b =>
    (⟨c.call, .returned, some (FlutterEverCrypto.sum a b w).1⟩,
      (FlutterEverCrypto.sum a b w).2)
  | .entry, .sum_long_running _ _ => (⟨c.call, .slept, none⟩, simulate_work _WIN32 w)
  | .entry, .flutter_ever_crypto_init =>
    (⟨c.call, .returned, none⟩, (FlutterEverCrypto.flutter_ever_crypto_init w).2)
  | .slept, .sum_long_running a b => (⟨c.call, .returned, some (int_add a b)⟩, w)
  | _, _ => (c, w)

/-- A step of the context at position `i`; no context is there when `i` is
past the end, and nothing happens. -/
def step_at (_WIN32 : Bool) : Nat → List Context → World → List Context × World
  | _, [], w => ([], w)
  | 0, c :: cs, w => ((c.step _WIN32 w).1 :: cs, (c.step _WIN32 w).2)
  | i + 1, c :: cs, w => (c :: (step_at _WIN32 i cs w).1, (step_at _WIN32 i cs w).2)

/-- An interleaved execution: the schedule names, step after step, the
context that moves. -/
def interleave (_WIN32 : Bool) : List Nat → List Context → World → List Context × World
  | [], cs, w => (cs, w)
  | i :: schedule, cs, w =>
    interleave _WIN32 schedule (step_at _WIN32 i cs w).1 (step_at _WIN32 i cs w).2

/-- One context at entry for each call. -/
def spawn (calls : List Call) : List Context :=
  calls.map (fun c => ⟨c, .entry, none⟩)

/-- What a step makes of the context itself. -/
def Context.next (c : Context) : Context :=
  (c.step false ⟨0, [], []⟩).1

/-! ## Machine arithmetic -/

theorem wrap32_of_inRange (x : Int) (h : InInt32 x) : wrap32 x = x := by
  simp only [InInt32, INT_MIN, INT_MAX] at h
  simp only [wrap32, INT_MIN, WORD]
  omega

theorem wrap32_inRange (x : Int) : InInt32 (wrap32 x) := by
  simp only [InInt32, wrap32, INT_MIN, INT_MAX, WORD]
  omega

theorem wrap32_emod (x : Int) : wrap32 x % WORD = x % WORD := by
  simp only [wrap32, INT_MIN, WORD]
  omega

theorem wrap32_above (x : Int) (h1 : INT_MAX < x) (h2 : x ≤ INT_MAX + WORD) :
    wrap32 x = x - WORD := by
  simp only [wrap32, INT_MIN, INT_MAX, WORD] at *
  omega

theorem wrap32_below (x : Int) (h1 : x < INT_MIN) (h2 : INT_MIN - WORD ≤ x) :
    wrap32 x = x + WORD := by
  simp only [wrap32, INT_MIN, INT_MAX, WORD] at *
  omega

theorem usleep_argument : to_uint32 (int_mul 5000 1000) = 5000000 := by decide

theorem Sleep_argument : to_uint32 5000 = 5000 := by decide

/-! ## The state after a call -/

theorem simulate_work_eq (_WIN32 : Bool) (w : World) :
    simulate_work _WIN32 w = (suspend 5000000 w).2 := by
  cases _WIN32
  · simp only [simulate_work, usleep, usleep_argument]
    rfl
  · simp only [simulate_work, Sleep, Sleep_argument]
    rfl

theorem sum_long_running_world (_WIN32 : Bool) (a b : Int) (w : World) :
    (sum_long_running _WIN32 a b w).2 = (suspend 5000000 w).2 :=
  simulate_work_eq _WIN32 w

theorem elapsed_pos (usec : Nat) (k : Wakeup) (h : 0 < usec) : 0 < k.elapsed usec := by
  cases k with
  | timeout late => simp only [Wakeup.elapsed]; omega
  | early slept => simp only [Wakeup.elapsed]; omega

theorem elapsed_ge (usec : Nat) (k : Wakeup) (h : k.cut_short usec = false) :
    usec ≤ k.elapsed usec := by
  cases k with
  | timeout late => simp only [Wakeup.elapsed]; omega
  | early slept =>
    simp only [Wakeup.cut_short, decide_eq_false_iff_not] at h
    simp only [Wakeup.elapsed]
    omega

theorem init_times_eq (n : Nat) (w : World) : init_times n w = w := by
  induction n generalizing w with
  | zero => rfl
  | succ n ih => exact ih _

/-! ## Interleaved execution -/

theorem step_fst (_WIN32 : Bool) (c : Context) (w : World) :
    (c.step _WIN32 w).1 = c.next := by
  rcases c with ⟨call, pc, ret⟩
  cases pc <;> cases call <;> rfl

theorem step_at_getElem? (_WIN32 : Bool) (i : Nat) (cs : List Context) (w : World) (j : Nat) :
    (step_at _WIN32 i cs w).1[j]? = if j = i then (cs[j]?).map Context.next else cs[j]? := by
  induction cs generalizing i j with
  | nil => cases i <;> simp [step_at]
  | cons c cs ih =>
    cases i with
    | zero =>
      cases j with
      | zero => simp [step_at, step_fst]
      | succ j => simp [step_at]
    | succ i =>
      cases j with
      | zero => simp [step_at]
      | succ j => simp [step_at, ih]

theorem interleave_getElem? (_WIN32 : Bool) (schedule : List Nat) (cs : List Context)
    (w : World) (j : Nat) :
    (interleave _WIN32 schedule cs w).1[j]?
      = (cs[j]?).map (Context.next^[schedule.count j]) := by
  induction schedule generalizing cs w with
  | nil => simp [interleave]
  | cons i schedule ih =>
    rw [interleave, ih, step_at_getElem?]
    by_cases h : j = i
    · subst h
      cases hc : cs[j]? with
      | none => simp
      | some c => simp [Function.iterate_succ_apply]
    · have h2 : ¬ i = j := fun e => h e.symm
      simp [h, h2, List.count_cons]

theorem spawn_getElem? (calls : List Call) (i : Nat) :
    (spawn calls)[i]? = (calls[i]?).map (fun c => ⟨c, .entry, none⟩) := by
  simp [spawn]

theorem next_iterate_sum (a b : Int) (k : Nat) :
    Context.next^[k + 1] ⟨.sum a b, .entry, none⟩
      = ⟨.sum a b, .returned, some (int_add a b)⟩ := by
  rw [Function.iterate_succ_apply]
  exact Function.iterate_fixed rfl k

theorem next_iterate_sum_long_running (a b : Int) (k : Nat) :
    Context.next^[k + 2] ⟨.sum_long_running a b, .entry, none⟩
      = ⟨.sum_long_running a b, .returned, some (int_add a b)⟩ := by
  rw [Function.iterate_succ_apply, Function.iterate_succ_apply]
  exact Function.iterate_fixed rfl k

theorem next_iterate_ret (call : Call) (a b : Int)
    (hfn : call = .sum a b ∨ call = .sum_long_running a b) (k : Nat) (r : Int)
    (h : (Context.next^[k] ⟨call, .entry, none⟩).ret = some r) : r = int_add a b := by
  rcases hfn with rfl | rfl
  · cases k with
    | zero => simp at h
    | succ k =>
      rw [next_iterate_sum] at h
      exact (Option.some.inj h).symm
  · cases k with
    | zero => simp at h
    | succ k =>
      cases k with
      | zero => simp [Context.next, Context.step] at h
      | succ k =>
        rw [next_iterate_sum_long_running] at h
        exact (Option.some.inj h).symm

theorem next_iterate_done (call : Call) (a b : Int)
    (hfn : call = .sum a b ∨ call = .sum_long_running a b) (k : Nat)
    (hk : call.steps ≤ k) :
    Context.next^[k] ⟨call, .entry, none⟩ = ⟨call, .returned, some (int_add a b)⟩ := by
  rcases hfn with rfl | rfl
  · obtain ⟨n, rfl⟩ : ∃ n, k = n + 1 := ⟨k - 1, by simp only [Call.steps] at hk; omega⟩
    exact next_iterate_sum a b n
  · obtain ⟨n, rfl⟩ : ∃ n, k = n + 2 := ⟨k - 2, by simp only [Call.steps] at hk; omega⟩
    exact next_iterate_sum_long_running a b n

theorem alone_sum_long_running (_WIN32 : Bool) (a b : Int) (w : World) :
    interleave _WIN32 [0, 0] (spawn [.sum_long_running a b]) w
      = ([⟨.sum_long_running a b, .returned, some (sum_long_running _WIN32 a b w).1⟩],
          (sum_long_running _WIN32 a b w).2) :=
  rfl

/-! ## Properties of the export surface -/

/-- C1: for signed 32-bit `a` and `b` whose mathematical sum is again a signed
32-bit value, `sum(a, b)` returns exactly `a + b`, whatever the world. -/
theorem sum_exact_in_range (a b : Int) (w : World)
    (_ha : InInt32 a) (_hb : InInt32 b) (hab : InInt32 (a + b)) :
    (sum a b w).1 = a + b :=
  wrap32_of_inRange (a + b) hab

theorem sum_exact_in_range_witness :
    InInt32 2147483000 ∧ InInt32 647 ∧ InInt32 (2147483000 + 647) ∧
      (sum 2147483000 647 ⟨0, [], []⟩).1 = 2147483000 + 647 :=
  ⟨by decide, by decide, by decide,
    sum_exact_in_range 2147483000 647 ⟨0, [], []⟩ (by decide) (by decide) (by decide)⟩

/-- C2: on either platform, for all operands (overflowing or not) and from
any worlds, `sum_long_running(a, b)` returns the value that `sum(a, b)`
returns: the sleep before the addition does not change the result. -/
theorem sum_long_running_eq_sum (_WIN32 : Bool) (a b : Int) (w w2 : World) :
    (sum_long_running _WIN32 a b w).1 = (sum a b w2).1 :=
  rfl

/-- C3: `sum(2, 2)` returns 4, `sum(-5, 5)` returns 0 and `sum(0, 0)`
returns 0, whatever the world. -/
theorem sum_examples (w : World) :
    (sum 2 2 w).1 = 4 ∧ (sum (-5) 5 w).1 = 0 ∧ (sum 0 0 w).1 = 0 :=
  ⟨(by decide : int_add 2 2 = 4), (by decide : int_add (-5) 5 = 0),
    (by decide : int_add 0 0 = 0)⟩

/-- C4 (amended): on either platform and for all operands, a call of
`sum_long_running(a, b)` hands one request of 5000 ms to the sleep primitive
before it returns; the world it leaves is the same for every other pair of
operands; it returns the machine sum `a + b`, which is the mathematical sum
whenever that is a signed 32-bit value, and `sum_long_running(3, 4)` returns
7.  Whenever that sleep is not cut short, the call returns with the clock
advanced by at least 5000 ms. -/
theorem sum_long_running_delay_unless_cut_short (_WIN32 : Bool) (a b : Int) (w : World) :
    (sum_long_running _WIN32 a b w).2.sleeps = 5000 * USEC_PER_MSEC :: w.sleeps ∧
      (∀ a2 b2 : Int,
        (sum_long_running _WIN32 a2 b2 w).2 = (sum_long_running _WIN32 a b w).2) ∧
      (sum_long_running _WIN32 a b w).1 = int_add a b ∧
      (InInt32 (a + b) → (sum_long_running _WIN32 a b w).1 = a + b) ∧
      (sum_long_running _WIN32 3 4 w).1 = 7 ∧
      ((next_wakeup w).cut_short (5000 * USEC_PER_MSEC) = false →
        w.clock + 5000 * USEC_PER_MSEC ≤ (sum_long_running _WIN32 a b w).2.clock ∧
        w.clock + 5000 * USEC_PER_MSEC ≤ (sum_long_running _WIN32 3 4 w).2.clock) := by
  have hclock : (next_wakeup w).cut_short (5000 * USEC_PER_MSEC) = false →
      ∀ x y : Int,
        w.clock + 5000 * USEC_PER_MSEC ≤ (sum_long_running _WIN32 x y w).2.clock := by
    intro h x y
    have hge := elapsed_ge _ _ h
    simp only [sum_long_running_world, suspend, USEC_PER_MSEC, Nat.reduceMul] at hge ⊢
    omega
  refine ⟨?_, ?_, rfl, ?_, (by decide : int_add 3 4 = 7), ?_⟩
  · simp only [sum_long_running_world, suspend, USEC_PER_MSEC]
  · intro a2 b2
    simp only [sum_long_running_world]
  · intro hab
    exact wrap32_of_inRange (a + b) hab
  · intro h
    exact ⟨hclock h a b, hclock h 3 4⟩

theorem sum_long_running_delay_unless_cut_short_witness :
    InInt32 (20 + 22) ∧
      (sum_long_running false 20 22 ⟨100, [], [.timeout 3]⟩).1 = 20 + 22 ∧
      (next_wakeup ⟨100, [], [.timeout 3]⟩).cut_short (5000 * USEC_PER_MSEC) = false ∧
      100 + 5000 * USEC_PER_MSEC
        ≤ (sum_long_running false 20 22 ⟨100, [], [.timeout 3]⟩).2.clock :=
  ⟨by decide,
    (sum_long_running_delay_unless_cut_short false 20 22
      ⟨100, [], [.timeout 3]⟩).2.2.2.1 (by decide),
    by decide,
    ((sum_long_running_delay_unless_cut_short false 20 22
      ⟨100, [], [.timeout 3]⟩).2.2.2.2.2 (by decide)).1⟩

/-- C4 as stated fails: on the POSIX branch, from a world whose next sleep
is interrupted by a handled signal about one second in,
`sum_long_running(3, 4)` returns 7 with the clock advanced by 1,000,000
microseconds, less than the 5000 ms of the claim. -/
theorem sum_long_running_delay_counterexample :
    (sum_long_running false 3 4 ⟨0, [], [.early 999999]⟩).1 = 7 ∧
      (sum_long_running false 3 4 ⟨0, [], [.early 999999]⟩).2.clock = 1000000 ∧
      ¬ (0 + 5000 * USEC_PER_MSEC
          ≤ (sum_long_running false 3 4 ⟨0, [], [.early 999999]⟩).2.clock) := by
  decide

/-- C5: for all signed 32-bit operands, overflowing or not, `sum(a, b)`
returns the signed 32-bit value congruent to `a + b` modulo `2^32`: `a + b`
itself when that is in range, `a + b - 2^32` above the range and
`a + b + 2^32` below it; `sum(2147483647, 1)` returns -2147483648 and
`sum(-2147483648, -1)` returns 2147483647.  A value is returned in every
case and the world is left as it was: nothing reports the overflow. -/
theorem sum_wraps_around (a b : Int) (w : World) (ha : InInt32 a) (hb : InInt32 b) :
    InInt32 (sum a b w).1 ∧
      (sum a b w).1 % WORD = (a + b) % WORD ∧
      (InInt32 (a + b) → (sum a b w).1 = a + b) ∧
      (INT_MAX < a + b → (sum a b w).1 = a + b - WORD) ∧
      (a + b < INT_MIN → (sum a b w).1 = a + b + WORD) ∧
      (sum a b w).2 = w ∧
      (sum 2147483647 1 w).1 = -2147483648 ∧
      (sum (-2147483648) (-1) w).1 = 2147483647 := by
  refine ⟨wrap32_inRange _, wrap32_emod _, wrap32_of_inRange _, ?_, ?_, rfl,
    (by decide : int_add 2147483647 1 = -2147483648),
    (by decide : int_add (-2147483648) (-1) = 2147483647)⟩
  · intro h
    apply wrap32_above _ h
    simp only [InInt32, INT_MIN, INT_MAX, WORD] at *
    omega
  · intro h
    apply wrap32_below _ h
    simp only [InInt32, INT_MIN, INT_MAX, WORD] at *
    omega

theorem sum_wraps_around_witness :
    (InInt32 2147483647 ∧ INT_MAX < 2147483647 + 2147483647 ∧
        (sum 2147483647 2147483647 ⟨0, [], []⟩).1 = 2147483647 + 2147483647 - WORD) ∧
      (InInt32 (-2147483648) ∧ -2147483648 + -2147483648 < INT_MIN ∧
        (sum (-2147483648) (-2147483648) ⟨0, [], []⟩).1
          = -2147483648 + -2147483648 + WORD) ∧
      (InInt32 (-7) ∧ InInt32 9 ∧ InInt32 (-7 + 9) ∧
        (sum (-7) 9 ⟨0, [], []⟩).1 = -7 + 9) :=
  ⟨⟨by decide, by decide,
      (sum_wraps_around 2147483647 2147483647 ⟨0, [], []⟩
        (by decide) (by decide)).2.2.2.1 (by decide)⟩,
    ⟨by decide, by decide,
      (sum_wraps_around (-2147483648) (-2147483648) ⟨0, [], []⟩
        (by decide) (by decide)).2.2.2.2.1 (by decide)⟩,
    ⟨by decide, by decide, by decide,
      (sum_wraps_around (-7) 9 ⟨0, [], []⟩ (by decide) (by decide)).2.2.1 (by decide)⟩⟩

/-- C6: the initializer returns (it has no failing path) and leaves the world
as it found it; so does any number `n` of consecutive calls of it, zero
included; and after them `sum` and `sum_long_running` return the value and
leave the world that they would without any call of the initializer. -/
theorem init_idempotent_noop (n : Nat) (_WIN32 : Bool) (a b : Int) (w : World) :
    flutter_ever_crypto_init w = ((), w) ∧
      (flutter_ever_crypto_init (flutter_ever_crypto_init w).2).2
        = (flutter_ever_crypto_init w).2 ∧
      init_times n w = w ∧
      sum a b (init_times n w) = sum a b w ∧
      sum_long_running _WIN32 a b (init_times n w) = sum_long_running _WIN32 a b w := by
  refine ⟨rfl, rfl, init_times_eq n w, ?_, ?_⟩
  · rw [init_times_eq]
  · rw [init_times_eq]

/-- C7: for all operands, `sum(a, b)` leaves the whole world unchanged, in
particular the clock and the record of requested sleeps: it requests no
sleep.  `sum_long_running(a, b)` from the same world does change it: one
more sleep is on record and the clock is strictly later. -/
theorem sum_leaves_world_unchanged (_WIN32 : Bool) (a b : Int) (w : World) :
    (sum a b w).2 = w ∧
      (sum a b w).2.clock = w.clock ∧
      (sum a b w).2.sleeps = w.sleeps ∧
      (sum_long_running _WIN32 a b w).2 ≠ w ∧
      (sum_long_running _WIN32 a b w).2.sleeps.length = w.sleeps.length + 1 ∧
      w.clock < (sum_long_running _WIN32 a b w).2.clock := by
  have hclock : w.clock < (sum_long_running _WIN32 a b w).2.clock := by
    have hpos := elapsed_pos 5000000 (next_wakeup w) (by decide)
    simp only [sum_long_running_world, suspend]
    omega
  refine ⟨rfl, rfl, rfl, ?_, ?_, hclock⟩
  · intro h
    rw [h] at hclock
    exact Nat.lt_irrefl _ hclock
  · simp only [sum_long_running_world, suspend, List.length_cons]

/-- C8: the value returned by `sum(a, b)`, and by `sum_long_running(a, b)`,
is the machine sum of its own two operands, whatever sequence of earlier
calls of the three exported functions was executed, from whatever world and
on whichever platform: two runs that differ only in the preceding history
return equal results. -/
theorem result_independent_of_history (p1 p2 : Bool) (a b : Int)
    (h1 h2 : List Call) (w1 w2 : World) :
    (sum a b (run p1 h1 w1)).1 = (sum a b (run p2 h2 w2)).1 ∧
      (sum_long_running p1 a b (run p1 h1 w1)).1
        = (sum_long_running p2 a b (run p2 h2 w2)).1 ∧
      (sum a b (run p1 h1 w1)).1 = int_add a b ∧
      (sum_long_running p1 a b (run p1 h1 w1)).1 = int_add a b :=
  ⟨rfl, rfl, rfl, rfl⟩

/-- C10: the argument `5000 * 1000` of `usleep` does not overflow the type
`int` and is 5,000,000, the number of microseconds in the 5000 ms handed to
`Sleep`; from the same world the two platform branches of
`sum_long_running` record the same requested duration and return the same
value. -/
theorem platform_branches_agree (a b : Int) (w : World) :
    InInt32 (5000 * 1000) ∧
      int_mul 5000 1000 = 5000000 ∧
      to_uint32 (int_mul 5000 1000) = to_uint32 5000 * USEC_PER_MSEC ∧
      (sum_long_running false a b w).2.sleeps = (sum_long_running true a b w).2.sleeps ∧
      (sum_long_running false a b w).2.sleeps = 5000 * USEC_PER_MSEC :: w.sleeps ∧
      (sum_long_running false a b w).1 = (sum_long_running true a b w).1 := by
  refine ⟨by decide, by decide, by decide, ?_, ?_, rfl⟩
  · simp only [sum_long_running_world]
  · simp only [sum_long_running_world, suspend, USEC_PER_MSEC]

/-- C9: contexts that call `sum` and `sum_long_running` concurrently, each
with its own operands, share one world and move in the order of an arbitrary
schedule.  For the context at position `i`, calling with `(a, b)`: whatever
the schedule, the other calls and their operands, a value it has returned is
the machine sum `a + b` of its own operands; once the schedule has given it
the steps of its call it has returned exactly that value, which is the
mathematical sum whenever that is a signed 32-bit value. -/
theorem concurrent_results_own_operands (_WIN32 : Bool) (calls : List Call)
    (schedule : List Nat) (w : World) (i : Nat) (a b : Int) (call : Call)
    (hcall : calls[i]? = some call)
    (hfn : call = .sum a b ∨ call = .sum_long_running a b) :
    ((interleave _WIN32 schedule (spawn calls) w).1[i]?).map Context.call = some call ∧
      (∀ c r, (interleave _WIN32 schedule (spawn calls) w).1[i]? = some c →
        c.ret = some r → r = int_add a b) ∧
      (call.steps ≤ schedule.count i →
        (interleave _WIN32 schedule (spawn calls) w).1[i]?
          = some ⟨call, .returned, some (int_add a b)⟩) ∧
      (call.steps ≤ schedule.count i → InInt32 (a + b) →
        (interleave _WIN32 schedule (spawn calls) w).1[i]?
          = some ⟨call, .returned, some (a + b)⟩) := by
  have hfinal : (interleave _WIN32 schedule (spawn calls) w).1[i]?
      = some (Context.next^[schedule.count i] ⟨call, .entry, none⟩) := by
    rw [interleave_getElem?, spawn_getElem?, hcall]
    rfl
  have hdone := next_iterate_done call a b hfn (schedule.count i)
  refine ⟨?_, ?_, ?_, ?_⟩
  · rw [hfinal]
    by_cases hk : call.steps ≤ schedule.count i
    · rw [hdone hk]
      rfl
    · have h0 : schedule.count i = 0 ∨ schedule.count i = 1 := by
        rcases hfn with rfl | rfl <;> simp only [Call.steps] at hk <;> omega
      rcases hfn with rfl | rfl <;> rcases h0 with h0 | h0 <;> rw [h0] <;> rfl
  · intro c r hc hr
    rw [hfinal] at hc
    cases Option.some.inj hc
    exact next_iterate_ret call a b hfn _ r hr
  · intro hk
    rw [hfinal, hdone hk]
  · intro hk hab
    rw [hfinal, hdone hk]
    have hsum : int_add a b = a + b := wrap32_of_inRange (a + b) hab
    rw [hsum]

theorem concurrent_results_own_operands_witness :
    [Call.sum 2147483647 1, Call.sum_long_running 3 4, Call.sum (-5) 5][1]?
        = some (Call.sum_long_running 3 4) ∧
      (Call.sum_long_running 3 4).steps ≤ [1, 0, 2, 1].count 1 ∧
      InInt32 (3 + 4) ∧
      (interleave false [1, 0, 2, 1]
          (spawn [Call.sum 2147483647 1, Call.sum_long_running 3 4, Call.sum (-5) 5])
          ⟨0, [], [.early 999999]⟩).1[1]?
        = some ⟨Call.sum_long_running 3 4, .returned, some (3 + 4)⟩ :=
  ⟨by decide, by decide, by decide,
    (concurrent_results_own_operands false
      [Call.sum 2147483647 1, Call.sum_long_running 3 4, Call.sum (-5) 5]
      [1, 0, 2, 1] ⟨0, [], [.early 999999]⟩ 1 3 4 (Call.sum_long_running 3 4)
      (by decide) (Or.inr rfl)).2.2.2 (by decide) (by decide)⟩

end FlutterEverCrypto
